import Mathlib

/-!
Verification of the paper-extraction pipeline: identifier resolution
(get_pmcid_from_url), bibliographic metadata resolution with its DOI
cascade (fetch_metadata_pmc), and the visual-element extraction pipeline
(figures, tables, standalone images) of SimpleVisualExtractor /
VisualElementsExtractor.

Python strings are modelled as Lean String values; case-insensitive
matching, substring search, and Python's str.strip() are modelled over
the underlying character lists (ASCII case folding and ASCII whitespace;
the source additionally folds non-ASCII codepoints, which no claim
exercises).
-/

/-! ## String helpers (models of Python string operations) -/

/-- Model of Python whitespace for str.strip(): space, tab, newline,
carriage return, vertical tab, form feed. -/
def isPySpace (c : Char) : Bool :=
  c == ' ' || c == '\t' || c == '\n' || c == '\r' ||
  c == Char.ofNat 11 || c == Char.ofNat 12

/-- Strip leading and trailing Python whitespace from a character list. -/
def stripL (l : List Char) : List Char :=
  ((l.dropWhile isPySpace).reverse.dropWhile isPySpace).reverse

/-- Model of Python str.strip(). -/
def pyStrip (s : String) : String := ⟨stripL s.data⟩

/-- Model of Python str.lower() (ASCII case folding). -/
def lowerS (s : String) : String := ⟨s.data.map Char.toLower⟩

/-- Substring test on character lists: does the needle occur contiguously
inside the haystack?  Models Python's `needle in hay`. -/
def containsL (hay needle : List Char) : Bool :=
  match hay with
  | [] => needle.isEmpty
  | _ :: t => needle.isPrefixOf hay || containsL t needle

/-- Model of Python's `needle in hay` on strings. -/
def containsS (hay needle : String) : Bool := containsL hay.data needle.data

/-- Model of Python's str.startswith. -/
def startsWithS (s p : String) : Bool := p.data.isPrefixOf s.data

/-! ## Identifier Resolver: get_pmcid_from_url

Source (metadata_extractor.py lines 7-11, identically help2.py 20-24):

    def get_pmcid_from_url(link):
        if not isinstance(link, str):
            return None
        m = re.search(r"PMC(\d+)", link, re.IGNORECASE)
        return m.group(1) if m else None

The regex search is modelled directly: scan left to right for the first
position where "PMC" (case-insensitive) is immediately followed by at
least one ASCII digit, and return the maximal digit run there. -/

/-- Try to match the pattern PMC(\d+), case-insensitively, anchored at the
head of the list; on success return the (maximal, greedy) captured digit
run. -/
def pmcMatchAt : List Char → Option (List Char)
  | p :: m :: c :: rest =>
    if p.toLower == 'p' && m.toLower == 'm' && c.toLower == 'c' then
      if (rest.takeWhile Char.isDigit).isEmpty then none
      else some (rest.takeWhile Char.isDigit)
    else none
  | _ => none

/-- Model of re.search for the pattern PMC(\d+) with re.IGNORECASE:
leftmost match wins. -/
def searchPMC : List Char → Option (List Char)
  | [] => none
  | c :: rest =>
    match pmcMatchAt (c :: rest) with
    | some ds => some ds
    | none => searchPMC rest

/-- get_pmcid_from_url.  A non-string argument is modelled by `none`. -/
def get_pmcid_from_url : Option String → Option String
  | none => none
  | some s => (searchPMC s.data).map (fun ds => ⟨ds⟩)

theorem pmcMatchAt_eq_run {l ds : List Char}
    (h : pmcMatchAt l = some ds) :
    ds = (l.drop 3).takeWhile Char.isDigit := by
  match l with
  | [] => simp [pmcMatchAt] at h
  | [_] => simp [pmcMatchAt] at h
  | [_, _] => simp [pmcMatchAt] at h
  | p :: m :: c :: rest =>
    simp only [pmcMatchAt] at h
    split at h
    · split at h
      · exact absurd h (by simp)
      · simp only [Option.some.injEq] at h
        rw [← h]; rfl
    · exact absurd h (by simp)

theorem searchPMC_eq_none_iff (l : List Char) :
    searchPMC l = none ↔ ∀ i, pmcMatchAt (l.drop i) = none := by
  induction l with
  | nil =>
    simp [searchPMC, pmcMatchAt]
  | cons c t ih =>
    constructor
    · intro h i
      cases hm : pmcMatchAt (c :: t) with
      | some ds => simp [searchPMC, hm] at h
      | none =>
        cases i with
        | zero => simpa using hm
        | succ j =>
          have ht : searchPMC t = none := by
            simpa [searchPMC, hm] using h
          simpa using (ih.mp ht) j
    · intro h
      have h0 := h 0
      simp only [List.drop_zero] at h0
      have ht : searchPMC t = none := ih.mpr (fun j => by
        have := h (j + 1)
        simpa using this)
      simp [searchPMC, h0, ht]

theorem searchPMC_first (l : List Char) (i : Nat)
    (hhit : (pmcMatchAt (l.drop i)).isSome)
    (hmin : ∀ j < i, pmcMatchAt (l.drop j) = none) :
    searchPMC l = some ((l.drop (i + 3)).takeWhile Char.isDigit) := by
  induction l generalizing i with
  | nil =>
    exfalso
    rw [List.drop_nil] at hhit
    rw [show pmcMatchAt [] = none from rfl] at hhit
    simp at hhit
  | cons c t ih =>
    cases i with
    | zero =>
      simp only [List.drop_zero] at hhit
      cases hm : pmcMatchAt (c :: t) with
      | none => rw [hm] at hhit; simp at hhit
      | some ds =>
        have hds := pmcMatchAt_eq_run hm
        simp only [searchPMC, hm]
        rw [hds]
    | succ j =>
      have h0 := hmin 0 (Nat.succ_pos j)
      simp only [List.drop_zero] at h0
      have hht : (pmcMatchAt (t.drop j)).isSome := by
        simpa using hhit
      have hmt : ∀ k < j, pmcMatchAt (t.drop k) = none := by
        intro k hk
        have := hmin (k + 1) (Nat.succ_lt_succ hk)
        simpa using this
      have := ih j hht hmt
      simp only [searchPMC, h0]
      simpa using this

/-- Claim C2: the Identifier Resolver returns exactly the digit run of the
first occurrence of "PMC" (case-insensitive) immediately followed by one
or more digits; when no such occurrence exists, or the input is not a
string, it returns no identifier.  (Positions beyond the string's length
need not be checked in the no-match branch since the pattern cannot match
an empty remainder.) -/
theorem identifier_resolver_first_digit_run :
    (get_pmcid_from_url none = none) ∧
    (∀ s : String, (∀ i ≤ s.data.length, pmcMatchAt (s.data.drop i) = none) →
      get_pmcid_from_url (some s) = none) ∧
    (∀ s : String, ∀ i, (pmcMatchAt (s.data.drop i)).isSome →
      (∀ j < i, pmcMatchAt (s.data.drop j) = none) →
      get_pmcid_from_url (some s) =
        some ⟨(s.data.drop (i + 3)).takeWhile Char.isDigit⟩) := by
  refine ⟨rfl, ?_, ?_⟩
  · intro s h
    have hall : ∀ i, pmcMatchAt (s.data.drop i) = none := by
      intro i
      rcases le_or_lt i s.data.length with hle | hgt
      · exact h i hle
      · have : s.data.drop i = [] := List.drop_eq_nil_of_le (Nat.le_of_lt hgt)
        rw [this]; rfl
    have : searchPMC s.data = none := (searchPMC_eq_none_iff s.data).mpr hall
    simp [get_pmcid_from_url, this]
  · intro s i hhit hmin
    have := searchPMC_first s.data i hhit hmin
    simp [get_pmcid_from_url, this]

/-- Concrete instantiation of the C2 theorem: the match inside
"xPMC4136787/" starts at index 1 and yields digit run "4136787"; the
all-miss branch fires on "no id here"; a non-string input resolves to
nothing. -/
theorem identifier_resolver_first_digit_run_witness :
    get_pmcid_from_url (some "xPMC4136787/") = some "4136787" ∧
    get_pmcid_from_url (some "no id here") = none ∧
    get_pmcid_from_url none = none := by
  refine ⟨?_, ?_, identifier_resolver_first_digit_run.1⟩
  · have h := identifier_resolver_first_digit_run.2.2 "xPMC4136787/" 1
      (by decide) (by decide)
    exact h.trans (by decide)
  · exact identifier_resolver_first_digit_run.2.1 "no id here" (by decide)

/-! ## Parsed document model

BeautifulSoup parse trees (HTML and XML alike) are modelled as a tree of
element nodes carrying a tag name and an attribute list, and text nodes.
The soup object itself is a document node whose children are the top
elements; find/find_all/select search its element descendants in
document (pre)order. -/

inductive HtmlNode where
  | elem (tag : String) (attrs : List (String × String)) (children : List HtmlNode)
  | text (s : String)

/-- Tag name of a node (text nodes have none; the empty string stands for
no tag, which never equals a searched tag name). -/
def tagOf : HtmlNode → String
  | .elem t _ _ => t
  | .text _ => ""

/-- Model of Tag.get(name): the first attribute with the given name. -/
def attrOf : HtmlNode → String → Option String
  | .elem _ attrs _, k => (attrs.find? (fun p => p.1 == k)).map (fun p => p.2)
  | .text _, _ => none

/-- Whitespace-separated tokenization, accumulating the current token in
reverse. -/
def classTokensAux : List Char → List Char → List String
  | [], acc => if acc.isEmpty then [] else [⟨acc.reverse⟩]
  | c :: t, acc =>
    if c.isWhitespace then
      if acc.isEmpty then classTokensAux t []
      else ⟨acc.reverse⟩ :: classTokensAux t []
    else classTokensAux t (c :: acc)

/-- Whitespace-separated tokens of a character list. -/
def classTokens (l : List Char) : List String := classTokensAux l []

/-- The class attribute split into its whitespace-separated tokens, as
BeautifulSoup presents multi-valued class attributes. -/
def classList (n : HtmlNode) : List String :=
  classTokens ((attrOf n "class").getD "").data

/-- Model of Python's ' '.join. -/
def intercalateSpace : List String → String
  | [] => ""
  | [t] => t
  | t :: rest => t ++ " " ++ intercalateSpace rest

mutual
/-- All element nodes of a subtree in document (pre)order, the root
included when it is an element. -/
def elemsIncl : HtmlNode → List HtmlNode
  | .text _ => []
  | .elem t a cs => .elem t a cs :: elemsList cs
/-- All element nodes of a forest in document (pre)order. -/
def elemsList : List HtmlNode → List HtmlNode
  | [] => []
  | n :: ns => elemsIncl n ++ elemsList ns
end

/-- Strict element descendants of a node in document order — the search
space of Tag.find / find_all / select on that node. -/
def descElems : HtmlNode → List HtmlNode
  | .elem _ _ cs => elemsList cs
  | .text _ => []

mutual
/-- The text fragments of a subtree in document order. -/
def textsOf : HtmlNode → List String
  | .text s => [s]
  | .elem _ _ cs => textsList cs
def textsList : List HtmlNode → List String
  | [] => []
  | n :: ns => textsOf n ++ textsList ns
end

/-- Model of Tag.get_text(strip=True): every text fragment stripped, then
concatenated. -/
def getTextStrip (n : HtmlNode) : String :=
  String.join ((textsOf n).map pyStrip)

mutual
/-- Model of str(tag): serialize a node back to markup. -/
def render : HtmlNode → String
  | .text s => s
  | .elem t a cs =>
    "<" ++ t ++ String.join (a.map (fun p => " " ++ p.1 ++ "=\x22" ++ p.2 ++ "\x22"))
      ++ ">" ++ renderList cs ++ "</" ++ t ++ ">"
def renderList : List HtmlNode → String
  | [] => ""
  | n :: ns => render n ++ renderList ns
end

/-- An element together with its navigation context: the chain of its
ancestors (nearest first, the document node last) and the siblings
preceding it (nearest first).  This models BeautifulSoup's parent /
previous-sibling navigation. -/
structure NodeLoc where
  node : HtmlNode
  parents : List HtmlNode
  prevSibs : List HtmlNode

mutual
/-- Element locations of a subtree, in document order. -/
def locsOf (anc : List HtmlNode) (before : List HtmlNode) :
    HtmlNode → List NodeLoc
  | .text _ => []
  | .elem t a cs =>
    ⟨.elem t a cs, anc, before⟩ :: locsChildren (.elem t a cs :: anc) [] cs
/-- Element locations of a forest, in document order, accumulating the
preceding siblings. -/
def locsChildren (anc : List HtmlNode) (before : List HtmlNode) :
    List HtmlNode → List NodeLoc
  | [] => []
  | c :: rest => locsOf anc before c ++ locsChildren anc (c :: before) rest
end

/-- All element locations of a document, in document order: the search
space of soup-level find_all / select. -/
def docLocs (doc : HtmlNode) : List NodeLoc :=
  match doc with
  | .elem _ _ cs => locsChildren [doc] [] cs
  | .text _ => []

mutual
theorem locsOf_map_node : (n : HtmlNode) → ∀ anc before,
    (locsOf anc before n).map NodeLoc.node = elemsIncl n
  | .text s => by intro anc before; simp [locsOf, elemsIncl]
  | .elem t a cs => by
    intro anc before
    simp [locsOf, elemsIncl, locsChildren_map_node cs]
theorem locsChildren_map_node : (cs : List HtmlNode) → ∀ anc before,
    (locsChildren anc before cs).map NodeLoc.node = elemsList cs
  | [] => by intro anc before; simp [locsChildren, elemsList]
  | c :: rest => by
    intro anc before
    simp [locsChildren, elemsList, locsOf_map_node c,
      locsChildren_map_node rest]
end

theorem docLocs_map_node (doc : HtmlNode) :
    (docLocs doc).map NodeLoc.node = descElems doc := by
  cases doc with
  | elem t a cs => simp [docLocs, descElems, locsChildren_map_node]
  | text s => simp [docLocs, descElems]

/-! ## Metadata Resolver: fetch_metadata_pmc

Source: metadata_extractor.py lines 13-98 (identically help2.py 26-111).
Network effects are modelled as explicit parameters: the esummary call's
outcome (an exception, or the parsed per-id result object), and the
efetch call's outcome (an exception, or a status flag with the parsed XML
document).  JSON dictionary fields are Option-valued — `none` stands for
an absent (or null) key. -/

/-- One entry of the esummary "authors" list: either a structured record
(whose "name" field may be absent) or any other value, carried as its
str() rendering. -/
inductive AuthorEntry where
  | dict (name : Option String)
  | other (strRep : String)

/-- One entry of the esummary "articleids" list: a structured record with
the common fields, or any other value carried as its str() rendering. -/
inductive ArticleId where
  | dict (id value idtype : Option String)
  | str (s : String)

/-- The per-id esummary result object.  Absent keys are `none`; the
elocationid is carried already str()-converted; an articleids value that
is not a list is modelled as `none` (the source skips the scan then,
exactly as for an absent key paired with the empty-list default). -/
structure SummaryResult where
  title : Option String := none
  fulljournalname : Option String := none
  pubdate : Option String := none
  authors : Option (List AuthorEntry) := none
  elocationid : Option String := none
  articleids : Option (List ArticleId) := none

/-- The efetch response: its ok flag (status < 400) and parsed XML body. -/
structure EfetchResp where
  ok : Bool
  body : HtmlNode

/-- The returned metadata dictionary.  `none` models an absent key. -/
structure MetaRecord where
  pmcid : String
  title : Option String := none
  journal : Option String := none
  pubdate : Option String := none
  authors : Option (List String) := none
  doi : Option String := none
  error : Option String := none

/-- Author normalization: dict entries contribute their (possibly
defaulted-to-empty) name, other entries their str() rendering; empty
names are skipped. -/
def authorsOf (res : SummaryResult) : List String :=
  (res.authors.getD []).filterMap (fun a =>
    let name := match a with
      | .dict n => n.getD ""
      | .other s => s
    if name = "" then none else some name)

/-- DOI cascade stage (a): the elocationid, when truthy and containing the
case-insensitive substring "doi", stripped. -/
def doiStageA (res : SummaryResult) : Option String :=
  match res.elocationid with
  | some eloc =>
    if eloc ≠ "" ∧ containsS (lowerS eloc) "doi" = true then some (pyStrip eloc)
    else none
  | none => none

/-- One articleids entry of the stage (b) scan. -/
def tryArticleId (aid : ArticleId) : Option String :=
  match aid with
  | .dict id value idtype =>
    let val : String :=
      if id.getD "" ≠ "" then id.getD ""
      else if value.getD "" ≠ "" then value.getD ""
      else id.getD ""
    let idt := lowerS (idtype.getD "")
    if idt = "doi" ∧ val ≠ "" then some val
    else if containsS idt "doi" = true ∧ val ≠ "" then some val
    else if containsS val "doi.org" = true ∨ startsWithS val "10." = true then
      some val
    else none
  | .str s =>
    if containsS (lowerS s) "doi" = true ∨ startsWithS (pyStrip s) "10." = true
    then some (pyStrip s)
    else none

/-- DOI cascade stage (b): first articleids entry that matches. -/
def doiStageB (res : SummaryResult) : Option String :=
  match res.articleids with
  | some aids => aids.firstM tryArticleId
  | none => none

/-- Substring after the last (left-to-right, non-overlapping) occurrence
of the separator: Python's hay.split(sep)[-1]. -/
def afterLastSep (sep : List Char) : List Char → List Char
  | [] => []
  | c :: t =>
    if sep ≠ [] ∧ sep.isPrefixOf (c :: t) then
      afterLastSep sep (t.drop (sep.length - 1))
    else if containsL t sep then afterLastSep sep t
    else c :: t
  termination_by l => l.length
  decreasing_by
    · simp only [List.length_drop, List.length_cons]; omega
    · simp only [List.length_cons]; omega

/-- href.split("doi.org/")[-1] if "doi.org/" in href else href. -/
def extractDoiFromHref (href : String) : String :=
  if containsS href "doi.org/" = true then
    ⟨afterLastSep "doi.org/".data href.data⟩
  else href

/-- DOI cascade stage (c): search the efetch XML for an article-id whose
pub-id-type matches "doi" case-insensitively and has non-empty stripped
text; otherwise fall back to an ext-link whose href contains "doi.org"
and take the substring after the last "doi.org/". -/
def doiStageC (resp : EfetchResp) : Option String :=
  if resp.ok then
    let fallback : Option String :=
      match ((descElems resp.body).filter (fun n =>
          tagOf n == "ext-link" &&
          (match attrOf n "href" with
           | some h => containsL h.data "doi.org".data
           | none => false))).head? with
      | some lnk =>
        match attrOf lnk "href" with
        | some href => if href ≠ "" then some (extractDoiFromHref href) else none
        | none => none
      | none => none
    match ((descElems resp.body).filter (fun n =>
        tagOf n == "article-id" &&
        (match attrOf n "pub-id-type" with
         | some v => containsL (v.data.map Char.toLower) "doi".data
         | none => false))).head? with
    | some tag => if getTextStrip tag ≠ "" then some (getTextStrip tag) else fallback
    | none => fallback
  else none

/-- The three-stage cascade as run by the source: stage (a), else stage
(b), else the efetch request (whose own exception aborts the whole call)
and stage (c). -/
def doiCascade (res : SummaryResult) (efetch : Except String EfetchResp) :
    Except String (Option String) :=
  match doiStageA res with
  | some d => .ok (some d)
  | none =>
    match doiStageB res with
    | some d => .ok (some d)
    | none =>
      match efetch with
      | .error e => .error e
      | .ok resp => .ok (doiStageC resp)

/-- fetch_metadata_pmc.  The esummary outcome and the efetch outcome are
the two effect parameters; an exception anywhere inside the try block
returns the {pmcid, error} record. -/
def fetch_metadata_pmc (pmcid : String) (esum : Except String SummaryResult)
    (efetch : Except String EfetchResp) : MetaRecord :=
  match esum with
  | .error e => { pmcid := pmcid, error := some e }
  | .ok res =>
    match doiCascade res efetch with
    | .error e => { pmcid := pmcid, error := some e }
    | .ok doi? =>
      { pmcid := pmcid
        title := some (res.title.getD "N/A")
        journal := some (res.fulljournalname.getD "N/A")
        pubdate := some (res.pubdate.getD "N/A")
        authors := some (authorsOf res)
        doi := some (match doi? with
          | some d => if d = "" then "N/A" else d
          | none => "N/A")
        error := none }

/-! ### Auxiliary facts: a string containing "doi" case-insensitively has
a non-empty strip. -/

theorem containsL_decomp {hay needle : List Char}
    (h : containsL hay needle = true) (hne : needle ≠ []) :
    ∃ pre suf, hay = pre ++ needle ++ suf := by
  induction hay with
  | nil =>
    simp only [containsL, List.isEmpty_iff] at h
    exact absurd h hne
  | cons c t ih =>
    simp only [containsL, Bool.or_eq_true] at h
    rcases h with h | h
    · rcases List.isPrefixOf_iff_prefix.mp h with ⟨suf, hsuf⟩
      exact ⟨[], suf, by simp [← hsuf]⟩
    · rcases ih h with ⟨pre, suf, hps⟩
      exact ⟨c :: pre, suf, by simp [hps]⟩

theorem toLower_d_not_space (c : Char) (h : c.toLower = 'd') :
    isPySpace c = false := by
  cases hsp : isPySpace c with
  | false => rfl
  | true =>
    exfalso
    simp only [isPySpace, Bool.or_eq_true, beq_iff_eq] at hsp
    rcases hsp with ((((h1 | h1) | h1) | h1) | h1) | h1 <;>
      (subst h1; exact absurd h (by decide))

theorem stripL_ne_nil {l : List Char} (c : Char) (hc : c ∈ l)
    (hcs : isPySpace c = false) : stripL l ≠ [] := by
  intro hnil
  have hrev : ((l.dropWhile isPySpace).reverse.dropWhile isPySpace) = [] := by
    have := congrArg List.reverse hnil
    simpa [stripL] using this
  have hall := List.dropWhile_eq_nil_iff.mp hrev
  have hcd : c ∈ l.dropWhile isPySpace := by
    have hsplit : l.takeWhile isPySpace ++ l.dropWhile isPySpace = l :=
      List.takeWhile_append_dropWhile isPySpace l
    rw [← hsplit] at hc
    rcases List.mem_append.mp hc with hmem | hmem
    · exact absurd (List.mem_takeWhile_imp hmem) (by simp [hcs])
    · exact hmem
  have : isPySpace c = true := hall c (List.mem_reverse.mpr hcd)
  simp [hcs] at this

theorem pyStrip_ne_empty_of_contains_doi (e : String)
    (h : containsS (lowerS e) "doi" = true) : pyStrip e ≠ "" := by
  have hdec : ∃ pre suf, e.data.map Char.toLower = pre ++ "doi".data ++ suf :=
    containsL_decomp h (by decide)
  rcases hdec with ⟨pre, suf, hps⟩
  have hd : 'd' ∈ e.data.map Char.toLower := by
    rw [hps]; simp [String.data]
  rcases List.mem_map.mp hd with ⟨c, hc, hlow⟩
  have hcs := toLower_d_not_space c hlow
  intro hcontra
  exact stripL_ne_nil c hc hcs (congrArg String.data hcontra)

/-- Claim C1: when cascade stage (a) matches — the elocationid is present,
truthy, and contains "doi" case-insensitively — the Metadata Resolver
returns exactly the stripped elocationid as the persistent identifier, for
EVERY articleids list and EVERY efetch outcome (even an efetch exception):
stages (b) and (c) are never consulted. -/
theorem doi_cascade_stage_a_priority (pmcid e : String) (res : SummaryResult)
    (efetch : Except String EfetchResp)
    (h1 : res.elocationid = some e) (h2 : e ≠ "")
    (h3 : containsS (lowerS e) "doi" = true) :
    (fetch_metadata_pmc pmcid (.ok res) efetch).doi = some (pyStrip e) ∧
    (fetch_metadata_pmc pmcid (.ok res) efetch).error = none := by
  have hA : doiStageA res = some (pyStrip e) := by
    simp [doiStageA, h1, h2, h3]
  have hC : doiCascade res efetch = .ok (some (pyStrip e)) := by
    simp [doiCascade, hA]
  have hne := pyStrip_ne_empty_of_contains_doi e h3
  constructor
  · simp [fetch_metadata_pmc, hC, hne]
  · simp [fetch_metadata_pmc, hC]

/-- A summary record with conflicting DOI candidates at all three stages. -/
def conflictSummary : SummaryResult :=
  { elocationid := some "doi:10.1371/journal.pone.0104830"
    articleids := some [.dict (some "10.9999/articleid") none (some "doi")] }

/-- An efetch response whose XML carries yet another DOI candidate. -/
def conflictEfetch : EfetchResp :=
  ⟨true, .elem "[document]" []
    [.elem "article-id" [("pub-id-type", "doi")] [.text "10.8888/xml"]]⟩

/-- Concrete instantiation of the C1 theorem: with conflicting candidates
at stages (a), (b) and (c), the stage-(a) value wins; stages (b) and (c)
would indeed each have produced a different value. -/
theorem doi_cascade_stage_a_priority_witness :
    (fetch_metadata_pmc "4136787" (.ok conflictSummary)
      (.ok conflictEfetch)).doi = some "doi:10.1371/journal.pone.0104830" ∧
    doiStageB conflictSummary = some "10.9999/articleid" ∧
    doiStageC conflictEfetch = some "10.8888/xml" := by
  have h := doi_cascade_stage_a_priority "4136787"
    "doi:10.1371/journal.pone.0104830" conflictSummary (.ok conflictEfetch)
    rfl (by decide) (by decide)
  exact ⟨h.1.trans (by decide), by decide, by decide⟩

/-- Counterexample to claim C3 as stated: the record produced on a caught
exception carries NO doi field at all (modelled as `none`), so the doi
field is not set to "N/A" on that path. -/
theorem doi_field_exception_record_counterexample :
    (fetch_metadata_pmc "4136787" (.error "HTTPError: 500")
      (.ok conflictEfetch)).doi = none ∧
    (fetch_metadata_pmc "4136787" (.error "HTTPError: 500")
      (.ok conflictEfetch)).error = some "HTTPError: 500" := by
  exact ⟨rfl, rfl⟩

/-- Claim C3 (amended): on every non-exception return — equivalently,
whenever the returned record carries no error field — the doi field is
present and non-empty, and when no cascade stage resolves a value it is
the sentinel "N/A".  The record returned on a caught exception instead
carries only the identifier and the error, with no doi field at all. -/
theorem doi_field_never_null_amended :
    (∀ pmcid esum efetch,
      (fetch_metadata_pmc pmcid esum efetch).error = none →
      ∃ d, (fetch_metadata_pmc pmcid esum efetch).doi = some d ∧ d ≠ "") ∧
    (∀ pmcid res resp,
      doiStageA res = none → doiStageB res = none → doiStageC resp = none →
      (fetch_metadata_pmc pmcid (.ok res) (.ok resp)).doi = some "N/A") := by
  constructor
  · intro pmcid esum efetch herr
    cases esum with
    | error e => simp [fetch_metadata_pmc] at herr
    | ok res =>
      cases hC : doiCascade res efetch with
      | error e => simp [fetch_metadata_pmc, hC] at herr
      | ok doi? =>
        cases doi? with
        | none => exact ⟨"N/A", by simp [fetch_metadata_pmc, hC], by decide⟩
        | some d =>
          by_cases hd : d = ""
          · exact ⟨"N/A", by simp [fetch_metadata_pmc, hC, hd], by decide⟩
          · exact ⟨d, by simp [fetch_metadata_pmc, hC, hd], hd⟩
  · intro pmcid res resp hA hB hCc
    simp [fetch_metadata_pmc, doiCascade, hA, hB, hCc]

/-- Concrete instantiation of the C3 amended theorem: an empty summary
record with a failed efetch resolves no stage, and the returned record
carries doi "N/A" and no error. -/
theorem doi_field_never_null_amended_witness :
    (∃ d, (fetch_metadata_pmc "1" (.ok {}) (.ok ⟨false, .text ""⟩)).doi
        = some d ∧ d ≠ "") ∧
    (fetch_metadata_pmc "1" (.ok {}) (.ok ⟨false, .text ""⟩)).doi
        = some "N/A" := by
  refine ⟨doi_field_never_null_amended.1 "1" (.ok {}) (.ok ⟨false, .text ""⟩)
    (by decide), ?_⟩
  exact doi_field_never_null_amended.2 "1" {} ⟨false, .text ""⟩
    (by decide) (by decide) (by decide)

/-- Claim C4: every exception during the summary fetch/parse is caught and
converted into a record carrying only the identifier and the error text
(never re-raised — fetch_metadata_pmc is a total function); likewise, an
exception during the secondary efetch request (reached when stages (a)
and (b) fail) produces the same shape of record. -/
theorem metadata_exception_caught :
    (∀ pmcid e efetch,
      fetch_metadata_pmc pmcid (.error e) efetch =
        { pmcid := pmcid, error := some e }) ∧
    (∀ pmcid res e, doiStageA res = none → doiStageB res = none →
      fetch_metadata_pmc pmcid (.ok res) (.error e) =
        { pmcid := pmcid, error := some e }) := by
  constructor
  · intro pmcid e efetch; rfl
  · intro pmcid res e hA hB
    simp [fetch_metadata_pmc, doiCascade, hA, hB]

/-- Concrete instantiation of the C4 theorem: a timeout during the
summary request, and a timeout during the efetch request after both
summary stages miss, each yield the bare {pmcid, error} record. -/
theorem metadata_exception_caught_witness :
    fetch_metadata_pmc "99" (.error "timeout") (.ok conflictEfetch) =
      { pmcid := "99", error := some "timeout" } ∧
    fetch_metadata_pmc "99" (.ok {}) (.error "timeout") =
      { pmcid := "99", error := some "timeout" } := by
  exact ⟨metadata_exception_caught.1 "99" "timeout" (.ok conflictEfetch),
    metadata_exception_caught.2 "99" {} "timeout" (by decide) (by decide)⟩

/-! ## Visual pipeline: SimpleVisualExtractor / VisualElementsExtractor

Source: visual_extractor_simple.py (the simple variant) and
visual_extractor.py (the strict variant, which differs only by the extra
parent-class/id check in _should_skip_image).  Image downloads are
modelled by an oracle `dl : String → Option String`: `some path` is a
successful download saved at `path`, `none` a failed one. -/

/-- The CSS selector shapes used by the classifier: tag with exact class
token, tag with class-attribute substring, bare tag, tag with attribute
present. -/
inductive Sel where
  | tagClass (t c : String)
  | tagClassStar (t c : String)
  | tagOnly (t : String)
  | tagHasAttr (t a : String)

def selMatches : Sel → HtmlNode → Bool
  | .tagClass t c, n => tagOf n == t && (classList n).contains c
  | .tagClassStar t c, n =>
    tagOf n == t && containsS ((attrOf n "class").getD "") c
  | .tagOnly t, n => tagOf n == t
  | .tagHasAttr t a, n => tagOf n == t && (attrOf n a).isSome

/-- figure_selectors of extract_figures, in source order. -/
def figureSelectors : List Sel :=
  [.tagClass "div" "figure", .tagClass "div" "fig",
   .tagClassStar "div" "figure", .tagClassStar "div" "fig",
   .tagOnly "figure", .tagHasAttr "div" "data-fig"]

/-- caption_selectors of extract_figures, in source order. -/
def captionSelectors : List Sel :=
  [.tagClass "div" "caption", .tagClass "div" "fig-caption",
   .tagClass "p" "caption", .tagClass "span" "caption",
   .tagClassStar "div" "caption"]

/-- soup.select(selector): matching element locations in document order. -/
def selectLocs (sel : Sel) (soup : HtmlNode) : List NodeLoc :=
  (docLocs soup).filter (fun l => selMatches sel l.node)

/-- tag.select_one(selector): first matching descendant. -/
def selectOne (sel : Sel) (n : HtmlNode) : Option HtmlNode :=
  ((descElems n).filter (selMatches sel)).head?

/-- tag.find('img'): first descendant img element. -/
def firstImgOf (n : HtmlNode) : Option HtmlNode :=
  ((descElems n).filter (fun m => tagOf m == "img")).head?

/-- Modelled from the spec: the external stdlib resolver
(urllib.parse.urljoin) that resolves a root-relative path against the
source document's base address — it keeps the scheme and host of the
base and appends the path. -/
def splitAtMarker (marker : List Char) : List Char → Option (List Char × List Char)
  | [] => none
  | c :: t =>
    if marker.isPrefixOf (c :: t) then some ([], (c :: t).drop marker.length)
    else
      match splitAtMarker marker t with
      | some (pre, post) => some (c :: pre, post)
      | none => none

/-- Modelled from the spec: urllib.parse.urljoin for a root-relative
reference — scheme plus host of the base, then the path. -/
def urljoinModel (base rel : String) : String :=
  match splitAtMarker "://".data base.data with
  | some (pre, post) =>
    ⟨pre ++ "://".data ++ post.takeWhile (fun c => c ≠ '/') ++ rel.data⟩
  | none => rel

/-- URL resolution applied to a figure's or image's src: protocol-relative
gets "https:" prepended, root-relative is joined with the page URL,
anything else passes through unchanged. -/
def resolveUrl (base u : String) : String :=
  if startsWithS u "//" then "https:" ++ u
  else if startsWithS u "/" then urljoinModel base u
  else u

/-- Context capture from a parent node: its flattened stripped text,
truncated to 500 characters with a "..." marker when longer. -/
def contextOf (parent? : Option HtmlNode) : String :=
  match parent? with
  | none => ""
  | some p =>
    let t := getTextStrip p
    if 500 < t.data.length then ⟨t.data.take 500⟩ ++ "..." else t

/-- One extracted figure record. -/
structure FigData where
  type : String
  number : Nat
  caption : String
  image_url : String
  local_path : String
  context : String
deriving DecidableEq, Repr

/-- Caption lookup of extract_figures: the first caption selector with a
hit wins; no hit leaves the caption empty. -/
def figureCaption (fig : HtmlNode) : String :=
  match (captionSelectors.filterMap (fun cs => selectOne cs fig)).head? with
  | some c => getTextStrip c
  | none => ""

/-- Resolution and download of a truthy src attribute: the resolved URL
paired with the downloaded local path (empty path on failure or when
there is nothing to download). -/
def srcUrlPath (dl : String → Option String) (base : String) :
    Option String → String × String
  | some u =>
    if u ≠ "" then (resolveUrl base u, (dl (resolveUrl base u)).getD "")
    else ("", "")
  | none => ("", "")

/-- The figure's image URL and local path: taken from the first descendant
img when it has a truthy src, empty otherwise. -/
def figureUrlPath (dl : String → Option String) (base : String) :
    Option HtmlNode → String × String
  | some img => srcUrlPath dl base (attrOf img "src")
  | none => ("", "")

/-- Build the figure record for the match at (0-based) pass position
i — its ordinal is i+1, scoped to the pass. -/
def mkFigureData (dl : String → Option String) (base : String) (num : Nat)
    (l : NodeLoc) : FigData :=
  { type := "figure", number := num, caption := figureCaption l.node,
    image_url := (figureUrlPath dl base (firstImgOf l.node)).1,
    local_path := (figureUrlPath dl base (firstImgOf l.node)).2,
    context := contextOf l.parents.head? }

/-- One selector pass of extract_figures: enumerate the matches, build
each record with ordinal position+1, keep it only when it has an image
URL or a caption. -/
def extractFiguresPass (dl : String → Option String) (base : String)
    (sel : Sel) (soup : HtmlNode) : List FigData :=
  (selectLocs sel soup).enum.filterMap (fun p =>
    let d := mkFigureData dl base (p.1 + 1) p.2
    if d.image_url ≠ "" ∨ d.caption ≠ "" then some d else none)

/-- extract_figures: all selector passes in order, concatenated. -/
def extract_figures (dl : String → Option String) (base : String)
    (soup : HtmlNode) : List FigData :=
  (figureSelectors.map (fun sel => extractFiguresPass dl base sel soup)).flatten

/-- One extracted table record. -/
structure TableData where
  type : String
  number : Nat
  caption : String
  html_content : String
  local_path : String
  context : String
  data : List (List String)
deriving DecidableEq, Repr

/-- The td/th cells of a row, in document order. -/
def cellsOf (row : HtmlNode) : List HtmlNode :=
  (descElems row).filter (fun n => tagOf n == "td" || tagOf n == "th")

/-- extract_table_data: the tr rows in document order, each mapped to its
cell texts; rows whose cell list is empty are dropped. -/
def extract_table_data (table : HtmlNode) : List (List String) :=
  ((descElems table).filter (fun n => tagOf n == "tr")).filterMap (fun row =>
    let rowData := (cellsOf row).map getTextStrip
    if rowData.isEmpty then none else some rowData)

/-- find_previous_sibling(): the nearest preceding sibling element. -/
def prevSiblingElem (l : NodeLoc) : Option HtmlNode :=
  l.prevSibs.find? (fun n => match n with
    | .elem _ _ _ => true
    | .text _ => false)

/-- Caption lookup of extract_tables: a nested caption element, else a
preceding sibling carrying a caption class token, else the parent's first
div/p descendant whose class attribute matches the caption pattern. -/
def tableCaption (l : NodeLoc) : String :=
  match ((descElems l.node).filter (fun n => tagOf n == "caption")).head? with
  | some cap => getTextStrip cap
  | none =>
    match prevSiblingElem l with
    | some ps =>
      if (classList ps).contains "caption" ∨ (classList ps).contains "table-caption"
      then getTextStrip ps
      else tableCaptionFromParent l.parents.head?
    | none => tableCaptionFromParent l.parents.head?
where
  tableCaptionFromParent : Option HtmlNode → String
  | some parent =>
    match ((descElems parent).filter (fun n =>
        (tagOf n == "div" || tagOf n == "p") &&
        (match attrOf n "class" with
         | some v => containsL v.data "caption".data
         | none => false))).head? with
    | some ce => getTextStrip ce
    | none => ""
  | none => ""

/-- The table locations of a document, in document order. -/
def tableLocs (soup : HtmlNode) : List NodeLoc :=
  (docLocs soup).filter (fun l => tagOf l.node == "table")

/-- Build the table record at (0-based) position i. -/
def mkTableData (od : String) (i : Nat) (l : NodeLoc) : TableData :=
  { type := "table", number := i + 1, caption := tableCaption l,
    html_content := render l.node,
    local_path := od ++ "/tables/table_" ++ toString (i + 1) ++ ".html",
    context := contextOf l.parents.head?,
    data := extract_table_data l.node }

/-- extract_tables: every table node becomes a record, unconditionally. -/
def extract_tables (od : String) (soup : HtmlNode) : List TableData :=
  (tableLocs soup).enum.map (fun p => mkTableData od p.1 p.2)

/-- skip_patterns of _should_skip_image, in source order. -/
def skipPatterns : List String :=
  ["static/img/", "icon-", "logo", "banner", "header", "footer",
   "nav-", "button", "arrow", "close", "search", "menu", "flag",
   "dot-gov", "https", "usa-icons", "ncbi-logos"]

/-- skip_alt_patterns of _should_skip_image, in source order. -/
def skipAltPatterns : List String :=
  ["logo", "icon", "button", "arrow", "close", "search",
   "menu", "flag", "banner", "header", "footer", "nav"]

/-- interface_indicators of the strict variant's parent check. -/
def interfaceIndicators : List String :=
  ["header", "footer", "nav", "menu", "sidebar", "toolbar",
   "banner", "logo", "icon", "button", "control"]

/-- Model of Python int(): optional surrounding whitespace and sign, then
ASCII digits. -/
def pyInt? (s : String) : Option Int :=
  match stripL s.data with
  | [] => none
  | '-' :: ds =>
    if ds ≠ [] ∧ ds.all Char.isDigit then
      some (-(ds.foldl (fun a c => a * 10 + (c.toNat - 48)) 0 : Nat))
    else none
  | '+' :: ds =>
    if ds ≠ [] ∧ ds.all Char.isDigit then
      some ((ds.foldl (fun a c => a * 10 + (c.toNat - 48)) 0 : Nat))
    else none
  | ds =>
    if ds.all Char.isDigit then
      some ((ds.foldl (fun a c => a * 10 + (c.toNat - 48)) 0 : Nat))
    else none

/-- The very-small-image check: both width and height attributes present
and truthy, both parsing as ints, and either below 50. -/
def widthHeightSmall (img : HtmlNode) : Bool :=
  match attrOf img "width", attrOf img "height" with
  | some w, some h =>
    if w ≠ "" ∧ h ≠ "" then
      match pyInt? w, pyInt? h with
      | some wi, some hi => decide (wi < 50 ∨ hi < 50)
      | _, _ => false
    else false
  | _, _ => false

/-- _should_skip_image of SimpleVisualExtractor. -/
def should_skip_image (img : HtmlNode) (imgUrl : String) : Bool :=
  if startsWithS imgUrl "data:" then true
  else if skipPatterns.any (fun p => containsS (lowerS imgUrl) p) then true
  else if skipAltPatterns.any (fun p =>
      containsS (lowerS ((attrOf img "alt").getD "")) p) then true
  else widthHeightSmall img

/-- _should_skip_image of VisualElementsExtractor (the strict variant):
identical, plus a final rejection when the parent's class tokens or id
contain an interface-region keyword. -/
def should_skip_image_full (img : HtmlNode) (parent? : Option HtmlNode)
    (imgUrl : String) : Bool :=
  if startsWithS imgUrl "data:" then true
  else if skipPatterns.any (fun p => containsS (lowerS imgUrl) p) then true
  else if skipAltPatterns.any (fun p =>
      containsS (lowerS ((attrOf img "alt").getD "")) p) then true
  else if widthHeightSmall img then true
  else
    match parent? with
    | some parent =>
      interfaceIndicators.any (fun ind =>
        containsS (lowerS (intercalateSpace (classList parent))) ind ||
        containsS (lowerS ((attrOf parent "id").getD "")) ind)
    | none => false

/-- Does a class attribute of the node contain this keyword,
case-insensitively?  Models the class_ lambdas of extract_images. -/
def classContainsCI (n : HtmlNode) (kw : String) : Bool :=
  match attrOf n "class" with
  | some v => containsS (lowerS v) kw
  | none => false

/-- The figure-exclusion test of extract_images: the img has an ancestor
div/figure whose class contains "fig" (find_parent), or an ancestor
div/figure whose class contains "figure", "fig" or "caption"
(find_parents). -/
def claimedByFigure (l : NodeLoc) : Bool :=
  l.parents.any (fun a =>
    (tagOf a == "div" || tagOf a == "figure") && classContainsCI a "fig") ||
  l.parents.any (fun a =>
    (tagOf a == "div" || tagOf a == "figure") &&
    (classContainsCI a "figure" || classContainsCI a "fig" ||
     classContainsCI a "caption"))

/-- One extracted standalone-image record. -/
structure ImgData where
  type : String
  number : Nat
  alt_text : String
  image_url : String
  local_path : String
  context : String
deriving DecidableEq, Repr

/-- Build the image record appended when the accepted list currently has
k entries — its ordinal is k+1, counting accepted candidates only. -/
def mkImgData (dl : String → Option String) (base : String) (k : Nat)
    (l : NodeLoc) (u : String) : ImgData :=
  { type := "image", number := k + 1,
    alt_text := (attrOf l.node "alt").getD "",
    image_url := resolveUrl base u,
    local_path := (dl (resolveUrl base u)).getD "",
    context := contextOf l.parents.head? }

/-- The loop of extract_images over the document's img elements,
accumulating accepted records. -/
def goImages (dl : String → Option String) (base : String) (excl : Bool) :
    List NodeLoc → List ImgData → List ImgData
  | [], acc => acc
  | l :: rest, acc =>
    if excl && claimedByFigure l then goImages dl base excl rest acc
    else
      match attrOf l.node "src" with
      | none => goImages dl base excl rest acc
      | some u =>
        if u = "" then goImages dl base excl rest acc
        else if should_skip_image l.node u then goImages dl base excl rest acc
        else
          let d := mkImgData dl base acc.length l u
          goImages dl base excl rest (if d.image_url = "" then acc else acc ++ [d])

/-- The img locations of a document, in document order. -/
def imgLocs (soup : HtmlNode) : List NodeLoc :=
  (docLocs soup).filter (fun l => tagOf l.node == "img")

/-- extract_images (exclude_figures defaults to true at the call site). -/
def extract_images (dl : String → Option String) (base : String)
    (excl : Bool) (soup : HtmlNode) : List ImgData :=
  goImages dl base excl (imgLocs soup) []

/-- The extraction result: the three sequences plus the metadata block's
source url and total element count. -/
structure VisualElements where
  images : List ImgData
  tables : List TableData
  figures : List FigData
  source_url : String
  total_elements : Nat
deriving DecidableEq, Repr

/-- extract_visual_elements: on a fetched page, run the three extractors
and set the total to the sum of the three lengths; a failed fetch
(soup? = none) returns no result. -/
def extract_visual_elements (dl : String → Option String) (od base : String)
    (soup? : Option HtmlNode) : Option VisualElements :=
  match soup? with
  | none => none
  | some soup =>
    let figs := extract_figures dl base soup
    let tabs := extract_tables od soup
    let imgs := extract_images dl base true soup
    some { images := imgs, tables := tabs, figures := figs,
           source_url := base,
           total_elements := imgs.length + tabs.length + figs.length }

/-! ### Claims about the visual pipeline -/

theorem filterMap_rows (rows : List HtmlNode) :
    rows.filterMap (fun row =>
      let rowData := (cellsOf row).map getTextStrip
      if rowData.isEmpty then none else some rowData) =
    (rows.filter (fun r => !(cellsOf r).isEmpty)).map
      (fun r => (cellsOf r).map getTextStrip) := by
  induction rows with
  | nil => rfl
  | cons r rest ih =>
    cases hcase : cellsOf r with
    | nil => simp [List.filterMap_cons, List.filter_cons, hcase, ih]
    | cons c cs => simp [List.filterMap_cons, List.filter_cons, hcase, ih]

/-- Claim C5: the extracted tables sequence has exactly one entry per
table node of the tree (every table node is accepted unconditionally),
and each table's row data is exactly the tr rows having at least one
td/th cell, in order, as their cell texts — cell-less rows are dropped. -/
theorem table_extraction_counts :
    (∀ od soup, (extract_tables od soup).length =
      ((descElems soup).filter (fun n => tagOf n == "table")).length) ∧
    (∀ table, extract_table_data table =
      (((descElems table).filter (fun n => tagOf n == "tr")).filter
        (fun r => !(cellsOf r).isEmpty)).map
        (fun r => (cellsOf r).map getTextStrip)) := by
  constructor
  · intro od soup
    have h1 : (extract_tables od soup).length = (tableLocs soup).length := by
      simp [extract_tables]
    have h2 : ((docLocs soup).map NodeLoc.node).filter
        (fun n => tagOf n == "table") =
        ((docLocs soup).filter (fun l => tagOf l.node == "table")).map
          NodeLoc.node := by
      rw [List.filter_map]
      rfl
    rw [h1, ← docLocs_map_node, h2]
    simp [tableLocs]
  · intro table
    exact filterMap_rows _

/-- A page with three table nodes, one of them with a single one-cell
row, and no figure-class containers and no images. -/
def threeTableDoc : HtmlNode :=
  .elem "[document]" []
    [.elem "body" []
      [.elem "table" [] [.elem "tr" [] [.elem "td" [] [.text "x"]]],
       .elem "table" [] [],
       .elem "table" [] []]]

/-- Claim C6: every produced extraction result reports a total element
count equal to the sum of the three sequence lengths; in particular the
three-table, figure-free page yields 0 figures, 3 tables and total 3. -/
theorem total_count_is_sum :
    (∀ dl od base soup, ∃ r,
      extract_visual_elements dl od base (some soup) = some r ∧
      r.total_elements = r.figures.length + r.tables.length + r.images.length) ∧
    ((extract_visual_elements (fun _ => none) "out" "http://h"
        (some threeTableDoc)).map
      (fun r => (r.figures.length, r.tables.length, r.total_elements))
      = some (0, 3, 3)) := by
  constructor
  · intro dl od base soup
    refine ⟨_, rfl, ?_⟩
    show (extract_images dl base true soup).length +
        (extract_tables od soup).length +
        (extract_figures dl base soup).length =
      (extract_figures dl base soup).length +
        (extract_tables od soup).length +
        (extract_images dl base true soup).length
    omega
  · decide

/-- An img element carrying no attributes at all. -/
def bareImg : HtmlNode := .elem "img" [] []

/-- Counterexample to claim C7 as stated: an inline data-URL image has no
width/height attributes and matches no URL or alt skip keyword, yet
shouldSkip returns true (the data:-payload check fires first), so the
accept half of the claim fails without a data-payload proviso. -/
theorem exclusion_filter_counterexample :
    should_skip_image bareImg "data:image/png;base64,iVBOR" = true ∧
    should_skip_image_full bareImg none "data:image/png;base64,iVBOR" = true ∧
    attrOf bareImg "width" = none ∧
    attrOf bareImg "height" = none ∧
    (∀ p ∈ skipPatterns,
      containsS (lowerS "data:image/png;base64,iVBOR") p = false) ∧
    (∀ p ∈ skipAltPatterns,
      containsS (lowerS ((attrOf bareImg "alt").getD "")) p = false) := by
  decide

theorem skip_of_pattern_mem (img : HtmlNode) (url pat : String)
    (hmem : pat ∈ skipPatterns) (h : containsS (lowerS url) pat = true) :
    should_skip_image img url = true ∧
    ∀ parent?, should_skip_image_full img parent? url = true := by
  have hany : skipPatterns.any (fun p => containsS (lowerS url) p) = true :=
    List.any_eq_true.mpr ⟨pat, hmem, h⟩
  constructor
  · unfold should_skip_image
    rw [hany]
    split <;> rfl
  · intro parent?
    unfold should_skip_image_full
    rw [hany]
    split <;> rfl

/-- Claim C7 (amended): in both filter variants, a candidate whose
resource address contains "logo" or "icon-" case-insensitively is always
rejected; and a candidate whose resource address is NOT an inline data:
payload, has no width/height attributes, and matches no URL or alt skip
keyword (and, in the strict variant, whose parent carries no
interface-region keyword in its class tokens or id) is accepted. -/
theorem exclusion_filter_amended :
    (∀ img url,
      (containsS (lowerS url) "logo" = true ∨
       containsS (lowerS url) "icon-" = true) →
      should_skip_image img url = true ∧
      ∀ parent?, should_skip_image_full img parent? url = true) ∧
    (∀ img url,
      startsWithS url "data:" = false →
      attrOf img "width" = none → attrOf img "height" = none →
      (∀ p ∈ skipPatterns, containsS (lowerS url) p = false) →
      (∀ p ∈ skipAltPatterns,
        containsS (lowerS ((attrOf img "alt").getD "")) p = false) →
      should_skip_image img url = false ∧
      should_skip_image_full img none url = false ∧
      (∀ parent,
        (∀ ind ∈ interfaceIndicators,
          containsS (lowerS (intercalateSpace (classList parent)))
            ind = false ∧
          containsS (lowerS ((attrOf parent "id").getD "")) ind = false) →
        should_skip_image_full img (some parent) url = false)) := by
  constructor
  · intro img url h
    rcases h with h | h
    · exact skip_of_pattern_mem img url "logo" (by decide) h
    · exact skip_of_pattern_mem img url "icon-" (by decide) h
  · intro img url hdata hw hh hurl halt
    have hany1 : skipPatterns.any (fun p => containsS (lowerS url) p) = false :=
      List.any_eq_false.mpr (fun p hp => by simp [hurl p hp])
    have hany2 : skipAltPatterns.any (fun p =>
        containsS (lowerS ((attrOf img "alt").getD "")) p) = false :=
      List.any_eq_false.mpr (fun p hp => by simp [halt p hp])
    have hsize : widthHeightSmall img = false := by
      unfold widthHeightSmall
      rw [hw]
    refine ⟨?_, ?_, ?_⟩
    · simp [should_skip_image, hdata, hany1, hany2, hsize]
    · simp [should_skip_image_full, hdata, hany1, hany2, hsize]
    · intro parent hpar
      have hany3 : interfaceIndicators.any (fun ind =>
          containsS (lowerS (intercalateSpace (classList parent))) ind ||
          containsS (lowerS ((attrOf parent "id").getD "")) ind) = false :=
        List.any_eq_false.mpr (fun ind hind => by
          simp [(hpar ind hind).1, (hpar ind hind).2])
      simp [should_skip_image_full, hdata, hany1, hany2, hsize, hany3]

/-- Concrete instantiation of the C7 amended theorem: a logo URL is
rejected by both variants; a plain attribute-free photograph URL is
accepted by both variants, also under a plain div parent. -/
theorem exclusion_filter_amended_witness :
    should_skip_image bareImg "/img/site-logo.png" = true ∧
    should_skip_image bareImg "photo1.png" = false ∧
    should_skip_image_full bareImg (some (.elem "div" [] []))
      "photo1.png" = false := by
  refine ⟨(exclusion_filter_amended.1 bareImg "/img/site-logo.png"
    (Or.inl (by decide))).1, ?_, ?_⟩
  · exact (exclusion_filter_amended.2 bareImg "photo1.png" (by decide)
      (by decide) (by decide) (by decide) (by decide)).1
  · exact (exclusion_filter_amended.2 bareImg "photo1.png" (by decide)
      (by decide) (by decide) (by decide) (by decide)).2.2
      (.elem "div" [] []) (by decide)

/-- Does the img location's raw (unresolved) src attribute contain
"https", case-insensitively? -/
def srcHasHttps (l : NodeLoc) : Bool :=
  match attrOf l.node "src" with
  | some u => containsS (lowerS u) "https"
  | none => false

theorem goImages_drop_https (dl : String → Option String) (base : String)
    (excl : Bool) (locs : List NodeLoc) :
    ∀ acc, goImages dl base excl (locs.filter (fun l => !srcHasHttps l)) acc =
      goImages dl base excl locs acc := by
  induction locs with
  | nil => intro acc; rfl
  | cons l rest ih =>
    intro acc
    cases hsrc : srcHasHttps l with
    | false =>
      rw [List.filter_cons_of_pos (by simp [hsrc])]
      by_cases hcl : (excl && claimedByFigure l) = true
      · simp only [goImages, hcl, if_true]
        exact ih acc
      · cases hsv : attrOf l.node "src" with
        | none => simp only [goImages, hcl, if_false, hsv]; exact ih acc
        | some u =>
          by_cases hu : u = ""
          · simp only [goImages, hcl, if_false, hsv, hu, if_true]
            exact ih acc
          · by_cases hsk : should_skip_image l.node u = true
            · simp only [goImages, hcl, if_false, hsv, hu, if_neg hu, hsk,
                if_true]
              exact ih acc
            · simp only [goImages, hcl, if_false, hsv, if_neg hu,
                Bool.if_false_right, hsk]
              exact ih _
    | true =>
      rw [List.filter_cons_of_neg (by simp [hsrc])]
      by_cases hcl : (excl && claimedByFigure l) = true
      · simp only [goImages, hcl, if_true]
        exact ih acc
      · cases hsv : attrOf l.node "src" with
        | none => simp [srcHasHttps, hsv] at hsrc
        | some u =>
          have hcontains : containsS (lowerS u) "https" = true := by
            simpa [srcHasHttps, hsv] using hsrc
          have hu : ¬(u = "") := by
            intro h
            subst h
            exact absurd hcontains (by decide)
          have hsk : should_skip_image l.node u = true :=
            (skip_of_pattern_mem l.node u "https" (by decide) hcontains).1
          simp only [goImages, hcl, if_false, hsv, if_neg hu, hsk, if_true]
          exact ih acc

/-- Claim C8: the skip-pattern list contains the bare substring "https",
so any image whose raw src contains "https" anywhere — in particular any
absolute https:// URL — is rejected by both filter variants, and such
images never contribute to the images sequence: extract_images computes
the same output as if they were removed from the document's img list
before any processing (the check runs on the raw src, before URL
resolution). -/
theorem https_images_never_kept :
    (∀ img url, containsS (lowerS url) "https" = true →
      should_skip_image img url = true ∧
      ∀ parent?, should_skip_image_full img parent? url = true) ∧
    (∀ dl base excl locs acc,
      goImages dl base excl (locs.filter (fun l => !srcHasHttps l)) acc =
        goImages dl base excl locs acc) ∧
    (∀ dl base excl soup,
      extract_images dl base excl soup =
        goImages dl base excl
          ((imgLocs soup).filter (fun l => !srcHasHttps l)) []) := by
  refine ⟨?_, ?_, ?_⟩
  · intro img url h
    exact skip_of_pattern_mem img url "https" (by decide) h
  · intro dl base excl locs acc
    exact goImages_drop_https dl base excl locs acc
  · intro dl base excl soup
    rw [extract_images, goImages_drop_https]

/-- Concrete instantiation of the C8 theorem: an absolute https:// image
URL is rejected by both variants, and a document whose only img carries
an https:// src yields no images at all. -/
theorem https_images_never_kept_witness :
    should_skip_image bareImg "https://example.org/fig1.jpg" = true ∧
    should_skip_image_full bareImg none "https://example.org/fig1.jpg" = true ∧
    extract_images (fun _ => none) "http://h" true
      (.elem "[document]" []
        [.elem "img" [("src", "https://example.org/fig1.jpg")] []]) = [] := by
  have h := https_images_never_kept.1 bareImg "https://example.org/fig1.jpg"
    (by decide)
  refine ⟨h.1, h.2 none, ?_⟩
  have h2 := https_images_never_kept.2.2 (fun _ => none) "http://h" true
    (.elem "[document]" []
      [.elem "img" [("src", "https://example.org/fig1.jpg")] []])
  rw [h2]
  decide

/-- A page with one figure-class div (carrying a caption) that is matched
by three distinct selector passes. -/
def dupFigDoc : HtmlNode :=
  .elem "[document]" []
    [.elem "div" [("class", "figure")]
      [.elem "div" [("class", "caption")] [.text "Cap"]]]

/-- Claim C9: extract_figures is the concatenation of the selector
passes; inside each pass, every produced candidate is built from the
match at position (ordinal - 1) of that pass — ordinals restart at 1 per
pass and follow pass position; across passes they are not unique: the
one-figure page yields three candidates all numbered 1, one from each of
three different selector passes. -/
theorem figure_ordinals_per_pass :
    (∀ dl base soup, extract_figures dl base soup =
      (figureSelectors.map (fun sel => extractFiguresPass dl base sel soup)).flatten) ∧
    (∀ dl base sel soup d, d ∈ extractFiguresPass dl base sel soup →
      ∃ i, ∃ h : i < (selectLocs sel soup).length,
        d.number = i + 1 ∧
        d = mkFigureData dl base (i + 1) ((selectLocs sel soup).get ⟨i, h⟩)) ∧
    ((extract_figures (fun _ => none) "http://h" dupFigDoc).map
        (fun d => d.number) = [1, 1, 1]) ∧
    (extractFiguresPass (fun _ => none) "http://h"
        (.tagClass "div" "figure") dupFigDoc ≠ [] ∧
     extractFiguresPass (fun _ => none) "http://h"
        (.tagClassStar "div" "figure") dupFigDoc ≠ [] ∧
     extractFiguresPass (fun _ => none) "http://h"
        (.tagClassStar "div" "fig") dupFigDoc ≠ []) := by
  refine ⟨fun dl base soup => rfl, ?_, by decide, by decide⟩
  intro dl base sel soup d hd
  rcases List.mem_filterMap.mp hd with ⟨p, hp, hf⟩
  have hmem := List.mem_enum_iff_getElem?.mp hp
  rcases List.getElem?_eq_some.mp hmem with ⟨hlt, hget⟩
  refine ⟨p.1, hlt, ?_, ?_⟩
  · by_cases hc : (mkFigureData dl base (p.1 + 1) p.2).image_url ≠ "" ∨
        (mkFigureData dl base (p.1 + 1) p.2).caption ≠ ""
    · rw [if_pos hc] at hf
      simp only [Option.some.injEq] at hf
      rw [← hf]
      rfl
    · rw [if_neg hc] at hf
      exact absurd hf (by simp)
  · by_cases hc : (mkFigureData dl base (p.1 + 1) p.2).image_url ≠ "" ∨
        (mkFigureData dl base (p.1 + 1) p.2).caption ≠ ""
    · rw [if_pos hc] at hf
      simp only [Option.some.injEq] at hf
      rw [← hf, List.get_eq_getElem, hget]
    · rw [if_neg hc] at hf
      exact absurd hf (by simp)

/-- The figure record the duplicate-ordinal page produces in each
matching pass. -/
def dupFigHead : FigData :=
  { type := "figure", number := 1, caption := "Cap", image_url := "",
    local_path := "", context := "Cap" }

/-- Concrete instantiation of the C9 theorem: the candidate produced by
the div.figure pass of the one-figure page is the pass's match number 1. -/
theorem figure_ordinals_per_pass_witness :
    ∃ i, ∃ h : i < (selectLocs (Sel.tagClass "div" "figure") dupFigDoc).length,
      dupFigHead.number = i + 1 ∧
      dupFigHead = mkFigureData (fun _ => none) "http://h" (i + 1)
        ((selectLocs (Sel.tagClass "div" "figure") dupFigDoc).get ⟨i, h⟩) :=
  figure_ordinals_per_pass.2.1 (fun _ => none) "http://h"
    (Sel.tagClass "div" "figure") dupFigDoc dupFigHead (by decide)

/-- Forgetting the local storage path of a figure record. -/
def clearFigPath (d : FigData) : FigData := { d with local_path := "" }

/-- Forgetting the local storage path of an image record. -/
def clearImgPath (d : ImgData) : ImgData := { d with local_path := "" }

theorem srcUrlPath_fst (dl dl' : String → Option String) (base : String) :
    ∀ o, (srcUrlPath dl base o).1 = (srcUrlPath dl' base o).1
  | some u => by
    by_cases hu : u ≠ ""
    · simp [srcUrlPath, hu]
    · simp [srcUrlPath, hu]
  | none => rfl

theorem figureUrlPath_fst (dl dl' : String → Option String) (base : String) :
    ∀ o, (figureUrlPath dl base o).1 = (figureUrlPath dl' base o).1
  | some img => srcUrlPath_fst dl dl' base (attrOf img "src")
  | none => rfl

theorem mkFigureData_url_eq (dl dl' : String → Option String)
    (base : String) (n : Nat) (l : NodeLoc) :
    (mkFigureData dl base n l).image_url =
    (mkFigureData dl' base n l).image_url :=
  figureUrlPath_fst dl dl' base (firstImgOf l.node)

theorem mkFigureData_clear_eq (dl dl' : String → Option String)
    (base : String) (n : Nat) (l : NodeLoc) :
    clearFigPath (mkFigureData dl base n l) =
    clearFigPath (mkFigureData dl' base n l) := by
  simp only [mkFigureData, clearFigPath]
  simp [figureUrlPath_fst dl dl' base (firstImgOf l.node)]

theorem extractFiguresPass_clear_eq (dl dl' : String → Option String)
    (base : String) (sel : Sel) (soup : HtmlNode) :
    (extractFiguresPass dl base sel soup).map clearFigPath =
    (extractFiguresPass dl' base sel soup).map clearFigPath := by
  unfold extractFiguresPass
  rw [List.map_filterMap, List.map_filterMap]
  apply List.filterMap_congr
  intro p hp
  have hurl := mkFigureData_url_eq dl dl' base (p.1 + 1) p.2
  have hcap : (mkFigureData dl base (p.1 + 1) p.2).caption =
      (mkFigureData dl' base (p.1 + 1) p.2).caption := rfl
  by_cases hcond : (mkFigureData dl base (p.1 + 1) p.2).image_url ≠ "" ∨
      (mkFigureData dl base (p.1 + 1) p.2).caption ≠ ""
  · have hcond' : (mkFigureData dl' base (p.1 + 1) p.2).image_url ≠ "" ∨
        (mkFigureData dl' base (p.1 + 1) p.2).caption ≠ "" := by
      rw [← hurl, ← hcap]
      exact hcond
    rw [if_pos hcond, if_pos hcond']
    simp [mkFigureData_clear_eq dl dl' base (p.1 + 1) p.2]
  · have hcond' : ¬((mkFigureData dl' base (p.1 + 1) p.2).image_url ≠ "" ∨
        (mkFigureData dl' base (p.1 + 1) p.2).caption ≠ "") := by
      rw [← hurl, ← hcap]
      exact hcond
    rw [if_neg hcond, if_neg hcond']

theorem mkImgData_clear_eq (dl dl' : String → Option String) (base : String)
    (k k' : Nat) (hk : k = k') (l : NodeLoc) (u : String) :
    clearImgPath (mkImgData dl base k l u) =
    clearImgPath (mkImgData dl' base k' l u) := by
  subst hk
  rfl

theorem goImages_clear_eq (dl dl' : String → Option String) (base : String)
    (excl : Bool) (locs : List NodeLoc) :
    ∀ acc acc', acc.map clearImgPath = acc'.map clearImgPath →
      (goImages dl base excl locs acc).map clearImgPath =
      (goImages dl' base excl locs acc').map clearImgPath := by
  induction locs with
  | nil => intro acc acc' h; simpa [goImages] using h
  | cons l rest ih =>
    intro acc acc' h
    have hlen : acc.length = acc'.length := by
      have := congrArg List.length h
      simpa using this
    by_cases hcl : (excl && claimedByFigure l) = true
    · simp only [goImages, hcl, if_true]
      exact ih acc acc' h
    · cases hsv : attrOf l.node "src" with
      | none =>
        simp only [goImages, hcl, if_false, hsv]
        exact ih acc acc' h
      | some u =>
        by_cases hu : u = ""
        · simp only [goImages, hcl, if_false, hsv, if_pos hu]
          exact ih acc acc' h
        · by_cases hsk : should_skip_image l.node u = true
          · simp only [goImages, hcl, if_false, hsv, if_neg hu, hsk, if_true]
            exact ih acc acc' h
          · simp only [goImages, hcl, if_false, hsv, if_neg hu, hsk,
              Bool.if_false_right]
            by_cases hie : (mkImgData dl base acc.length l u).image_url = ""
            · have hie' : (mkImgData dl' base acc'.length l u).image_url = "" :=
                hie
              rw [if_pos hie, if_pos hie']
              exact ih acc acc' h
            · have hie' : ¬(mkImgData dl' base acc'.length l u).image_url = "" :=
                hie
              rw [if_neg hie, if_neg hie']
              apply ih
              rw [List.map_append, List.map_append, h]
              simp [mkImgData_clear_eq dl dl' base acc.length acc'.length hlen]

theorem srcUrlPath_none_snd (base : String) :
    ∀ o, (srcUrlPath (fun _ => none) base o).2 = ""
  | some u => by
    by_cases hu : u ≠ ""
    · simp [srcUrlPath, hu]
    · simp [srcUrlPath, hu]
  | none => rfl

theorem mkFigureData_none_path (base : String) (n : Nat) (l : NodeLoc) :
    (mkFigureData (fun _ => none) base n l).local_path = "" := by
  show (figureUrlPath (fun _ => none) base (firstImgOf l.node)).2 = ""
  cases firstImgOf l.node with
  | none => rfl
  | some img => exact srcUrlPath_none_snd base (attrOf img "src")

theorem goImages_none_path (base : String) (excl : Bool)
    (locs : List NodeLoc) :
    ∀ acc, (∀ x ∈ acc, x.local_path = "") →
      ∀ d ∈ goImages (fun _ => none) base excl locs acc,
        d.local_path = "" := by
  induction locs with
  | nil => intro acc hacc d hd; exact hacc d hd
  | cons l rest ih =>
    intro acc hacc d hd
    by_cases hcl : (excl && claimedByFigure l) = true
    · rw [show goImages (fun _ => none) base excl (l :: rest) acc =
        goImages (fun _ => none) base excl rest acc by
          simp only [goImages, hcl, if_true]] at hd
      exact ih acc hacc d hd
    · cases hsv : attrOf l.node "src" with
      | none =>
        rw [show goImages (fun _ => none) base excl (l :: rest) acc =
          goImages (fun _ => none) base excl rest acc by
            simp [goImages, hcl, hsv]] at hd
        exact ih acc hacc d hd
      | some u =>
        by_cases hu : u = ""
        · rw [show goImages (fun _ => none) base excl (l :: rest) acc =
            goImages (fun _ => none) base excl rest acc by
              simp [goImages, hcl, hsv, hu]] at hd
          exact ih acc hacc d hd
        · by_cases hsk : should_skip_image l.node u = true
          · rw [show goImages (fun _ => none) base excl (l :: rest) acc =
              goImages (fun _ => none) base excl rest acc by
                simp [goImages, hcl, hsv, hu, hsk]] at hd
            exact ih acc hacc d hd
          · rw [show goImages (fun _ => none) base excl (l :: rest) acc =
              goImages (fun _ => none) base excl rest
                (if (mkImgData (fun _ => none) base acc.length l u).image_url
                    = "" then acc
                 else acc ++ [mkImgData (fun _ => none) base acc.length l u]) by
                simp [goImages, hcl, hsv, hu, hsk]] at hd
            by_cases hie :
                (mkImgData (fun _ => none) base acc.length l u).image_url = ""
            · rw [if_pos hie] at hd
              exact ih acc hacc d hd
            · rw [if_neg hie] at hd
              refine ih _ ?_ d hd
              intro x hx
              rcases List.mem_append.mp hx with hx | hx
              · exact hacc x hx
              · rcases List.mem_singleton.mp hx with rfl
                rfl

/-- Claim C10: the accepted figure and image candidate sequences — every
field except the local path — are identical for every download oracle
(a failed download never drops a candidate, never renumbers it and never
aborts the run), and under the always-failing oracle every retained
candidate carries an empty local-path field. -/
theorem download_failure_nonfatal :
    (∀ dl dl' base soup,
      (extract_figures dl base soup).map clearFigPath =
      (extract_figures dl' base soup).map clearFigPath) ∧
    (∀ dl dl' base excl soup,
      (extract_images dl base excl soup).map clearImgPath =
      (extract_images dl' base excl soup).map clearImgPath) ∧
    (∀ base soup d, d ∈ extract_figures (fun _ => none) base soup →
      d.local_path = "") ∧
    (∀ base excl soup d, d ∈ extract_images (fun _ => none) base excl soup →
      d.local_path = "") := by
  refine ⟨?_, ?_, ?_, ?_⟩
  · intro dl dl' base soup
    simp only [extract_figures, List.map_flatten]
    congr 1
    rw [List.map_map, List.map_map]
    apply List.map_congr_left
    intro sel _
    exact extractFiguresPass_clear_eq dl dl' base sel soup
  · intro dl dl' base excl soup
    exact goImages_clear_eq dl dl' base excl (imgLocs soup) [] [] rfl
  · intro base soup d hd
    rcases List.mem_flatten.mp hd with ⟨lp, hlp, hdl⟩
    rcases List.mem_map.mp hlp with ⟨sel, hsel, hpass⟩
    rw [← hpass] at hdl
    rcases List.mem_filterMap.mp hdl with ⟨p, hp, hf⟩
    by_cases hc : (mkFigureData (fun _ => none) base (p.1 + 1) p.2).image_url
        ≠ "" ∨ (mkFigureData (fun _ => none) base (p.1 + 1) p.2).caption ≠ ""
    · rw [if_pos hc] at hf
      simp only [Option.some.injEq] at hf
      rw [← hf]
      exact mkFigureData_none_path base (p.1 + 1) p.2
    · rw [if_neg hc] at hf
      exact absurd hf (by simp)
  · intro base excl soup d hd
    exact goImages_none_path base excl (imgLocs soup) [] (by simp) d hd

/-- A page with one plain standalone photograph. -/
def photoDoc : HtmlNode :=
  .elem "[document]" [] [.elem "img" [("src", "photo1.png")] []]

/-- The image record that page yields under the always-failing oracle. -/
def photoImgRec : ImgData :=
  { type := "image", number := 1, alt_text := "", image_url := "photo1.png",
    local_path := "", context := "" }

/-- Concrete instantiation of the C10 theorem: under the always-failing
download oracle, the retained figure and image candidates carry empty
local paths. -/
theorem download_failure_nonfatal_witness :
    dupFigHead.local_path = "" ∧ photoImgRec.local_path = "" := by
  refine ⟨?_, ?_⟩
  · exact download_failure_nonfatal.2.2.1 "http://h" dupFigDoc dupFigHead
      (by decide)
  · exact download_failure_nonfatal.2.2.2 "http://h" true photoDoc photoImgRec
      (by decide)
